import Mathlib

/-!
Shallow embedding of the go-data-structures repository: a generic FIFO
`Queue` with optional duplicate suppression (package `queue`), and a
hash-based `Set` (package `set`, embedded here as `GoSet` because `Set`
is taken by Mathlib).  Go slices of visible elements are embedded as
`List`; the zero value of a type parameter `T` is `default`; the Go
runtime comparability of `T` (`reflect.ValueOf(t).Comparable()`) is an
abstract boolean parameter `comp` attached to each call that consults it.
-/

/-- Go `Queue[T]` from the queue package: an element slice, the
`preventDuplicates` flag and the registered `equalsFunc`.  The Go zero
value of the function field is `nil`; it is embedded as the constantly
false function, which is never consulted while `preventDuplicates` is
`false`. -/
structure Queue (T : Type) where
  elements : List T
  preventDuplicates : Bool
  equalsFunc : T → T → Bool

namespace Queue

variable {T : Type}

/-- Go `NewQueue` returns an empty queue (`make([]T, 0)`, zero flag, nil
function). -/
def NewQueue (T : Type) : Queue T :=
  ⟨[], false, fun _ _ => false⟩

/-- Go `PreventDuplicates`: if the zero value of `T` is not comparable
(`comp = false`), return an error and leave the receiver untouched;
otherwise set the flag and store `equalsFunc`.  The receiver's final
state is returned alongside the `error` result. -/
def PreventDuplicates (comp : Bool) (q : Queue T) (equalsFunc : T → T → Bool) :
    Queue T × Option String :=
  if !comp then
    (q, some "type is not comparable")
  else
    ({ q with preventDuplicates := true, equalsFunc := equalsFunc }, none)

/-- Go `Enqueue`: when `preventDuplicates` is set, scan the elements
front-to-back and return unchanged on the first `equalsFunc` match;
otherwise append to the back. -/
def Enqueue (q : Queue T) (element : T) : Queue T :=
  if q.preventDuplicates && q.elements.any (fun e => q.equalsFunc element e) then
    q
  else
    { q with elements := q.elements ++ [element] }

/-- Go `Length` returns the number of elements in the queue. -/
def Length (q : Queue T) : Nat :=
  q.elements.length

/-- Go `IsEmpty` returns whether the queue has no elements. -/
def IsEmpty (q : Queue T) : Bool :=
  q.elements.length == 0

/-- Go `Dequeue`: on an empty queue return the zero value and `false`
leaving the queue as is; with exactly one element return it and reset
the slice to `nil` (embedded as `[]`); otherwise return the front and
keep the tail `elements[1:]`. -/
def Dequeue [Inhabited T] (q : Queue T) : (T × Bool) × Queue T :=
  if q.IsEmpty then
    ((default, false), q)
  else
    let element := q.elements.headD default
    if q.Length == 1 then
      ((element, true), { q with elements := [] })
    else
      ((element, true), { q with elements := q.elements.tail })

/-- Go `Peek`: the front element and `true`, or the zero value and `false`
on an empty queue; the method body contains no write to the receiver,
so the returned state is the input state. -/
def Peek [Inhabited T] (q : Queue T) : (T × Bool) × Queue T :=
  if q.IsEmpty then
    ((default, false), q)
  else
    ((q.elements.headD default, true), q)

end Queue

/-- A trace operation on a `Queue`: the three mutating calls of the
package (`NewQueue` is the trace's start state). -/
inductive QOp (T : Type) where
  | enq (x : T)
  | deq
  | prevDup (f : T → T → Bool)

/-- Whether a trace operation is a `PreventDuplicates` call. -/
def QOp.isPrevDup {T : Type} : QOp T → Bool
  | .prevDup _ => true
  | _ => false

namespace Queue

variable {T : Type}

/-- Run one trace operation; `comp` is the runtime comparability of `T`,
fixed for the whole trace. -/
def applyQOp [Inhabited T] (comp : Bool) (q : Queue T) : QOp T → Queue T
  | .enq x => q.Enqueue x
  | .deq => (q.Dequeue).2
  | .prevDup f => (PreventDuplicates comp q f).1

/-- Run a trace of operations from a given state. -/
def applyQOps [Inhabited T] (comp : Bool) (ops : List (QOp T)) (q : Queue T) : Queue T :=
  ops.foldl (applyQOp comp) q

/-- Go `Enqueue` each value of the list in order. -/
def enqueueAll (q : Queue T) (vs : List T) : Queue T :=
  vs.foldl Enqueue q

/-- Go `Dequeue` a given number of times, collecting the returned
value/flag pairs in call order. -/
def dequeueList [Inhabited T] (q : Queue T) : Nat → List (T × Bool) × Queue T
  | 0 => ([], q)
  | n + 1 =>
    let r := q.Dequeue
    let rest := dequeueList r.2 n
    (r.1 :: rest.1, rest.2)

/-- The spec's suppression invariant for a queue state: no two elements
of the sequence are equivalent under the registered function. -/
def NoDupsUnder (q : Queue T) : Prop :=
  List.Pairwise (fun a b => q.equalsFunc a b = false) q.elements

end Queue

/-- A Go slice header: backing array (as the list of all stored values),
start offset and length.  Both `nil` and `make([]T, 0)` have an empty
backing array, offset 0 and length 0; the visible elements are
`(backing.drop off).take len`.  This refined model is used only for the
storage-reset behaviour of `Dequeue`. -/
structure GoSlice (T : Type) where
  backing : List T
  off : Nat
  len : Nat
  deriving DecidableEq

namespace GoSlice

variable {T : Type}

/-- The elements visible through the slice header. -/
def view (s : GoSlice T) : List T :=
  (s.backing.drop s.off).take s.len

/-- The `nil` slice. -/
def goNil (T : Type) : GoSlice T :=
  ⟨[], 0, 0⟩

end GoSlice

/-- The queue state at slice-header precision (the suppression fields do
not participate in `Dequeue` and are omitted). -/
structure QueueS (T : Type) where
  elements : GoSlice T

namespace QueueS

variable {T : Type}

/-- Go `NewQueue` at slice precision: `make([]T, 0)` is a slice with empty
backing array, offset 0, length 0. -/
def NewQueueS (T : Type) : QueueS T :=
  ⟨⟨[], 0, 0⟩⟩

/-- Go `Dequeue` at slice precision, line for line from the source: empty
check, read `elements[0]`, then either the explicit reset
`q.elements = nil` (when the length was 1) or the reslice
`q.elements = q.elements[1:]` which keeps the backing array and advances
the offset. -/
def DequeueS [Inhabited T] (q : QueueS T) : (T × Bool) × QueueS T :=
  if q.elements.len = 0 then
    ((default, false), q)
  else
    let element := q.elements.view.headD default
    if q.elements.len = 1 then
      ((element, true), ⟨GoSlice.goNil T⟩)
    else
      ((element, true), ⟨⟨q.elements.backing, q.elements.off + 1, q.elements.len - 1⟩⟩)

end QueueS

/-- Go `Set[T]` from the set package (named `GoSet`: `Set` is Mathlib's).
The Go field is `members map[T]struct{}`; a map with unit values is its
key set, embedded as a `Finset`. -/
structure GoSet (T : Type) [DecidableEq T] where
  members : Finset T

namespace GoSet

variable {T : Type} [DecidableEq T]

/-- Go `NewSet` returns an empty set. -/
def NewSet (T : Type) [DecidableEq T] : GoSet T :=
  ⟨∅⟩

/-- Go `Members` returns the elements as a slice; the order is unspecified
and may differ between calls, so the slice is embedded as a multiset (a
list up to permutation). -/
def Members (s : GoSet T) : Multiset T :=
  s.members.val

/-- Go `Add` inserts a key into the map. -/
def Add (s : GoSet T) (member : T) : GoSet T :=
  ⟨insert member s.members⟩

/-- Go `Remove` deletes a key from the map. -/
def Remove (s : GoSet T) (member : T) : GoSet T :=
  ⟨s.members.erase member⟩

/-- Go `Contains` is the map lookup. -/
def Contains (s : GoSet T) (member : T) : Bool :=
  member ∈ s.members

/-- Go `Size` is the map's length. -/
def Size (s : GoSet T) : Nat :=
  s.members.card

/-- Go `Clear` replaces the map by a fresh empty one. -/
def Clear (_s : GoSet T) : GoSet T :=
  ⟨∅⟩

/-- Go `Intersect`: keep the members of `s` that also occur in `other`,
into a fresh set. -/
def Intersect (s other : GoSet T) : GoSet T :=
  ⟨s.members.filter (fun member => member ∈ other.members)⟩

/-- Go `Union`: all members of `s`, then all members of `other`, into a
fresh set. -/
def Union (s other : GoSet T) : GoSet T :=
  ⟨s.members ∪ other.members⟩

/-- Go `Difference`: keep the members of `s` that do not occur in `other`,
into a fresh set. -/
def Difference (s other : GoSet T) : GoSet T :=
  ⟨s.members.filter (fun member => member ∉ other.members)⟩

end GoSet

/-- A trace operation on a `GoSet`: the two mutating calls the size
claim ranges over. -/
inductive SetOp (T : Type) where
  | add (x : T)
  | remove (x : T)

namespace GoSet

variable {T : Type} [DecidableEq T]

/-- Run one trace operation. -/
def applySetOp (s : GoSet T) : SetOp T → GoSet T
  | .add x => s.Add x
  | .remove x => s.Remove x

/-- Run a trace of `Add`/`Remove` operations from the empty set
(`NewSet`, which is also the state right after a `Clear`). -/
def applySetOps (ops : List (SetOp T)) : GoSet T :=
  ops.foldl applySetOp (NewSet T)

/-- The distinct values that some `Add` in the trace inserted. -/
def distinctAdded (ops : List (SetOp T)) : Finset T :=
  ops.foldl
    (fun acc op =>
      match op with
      | .add x => insert x acc
      | .remove _ => acc)
    ∅

/-- The distinct values that some `Remove` in the trace deleted while
they were present (a successful removal), computed by replaying the
trace. -/
def distinctRemoved (ops : List (SetOp T)) : Finset T :=
  (ops.foldl
    (fun acc op =>
      match acc with
      | (s, r) =>
        match op with
        | .add x => (s.Add x, r)
        | .remove x => (s.Remove x, if x ∈ s.members then insert x r else r))
    (NewSet T, ∅)).2

/-- Whether the last `Add`/`Remove` of the trace that touches `x` is an
`Add` (false when no operation touches `x`). -/
def lastIsAdd (ops : List (SetOp T)) (x : T) : Bool :=
  ops.foldl
    (fun b op =>
      match op with
      | .add y => if y = x then true else b
      | .remove y => if y = x then false else b)
    false

end GoSet

/-- A heap of `Set` cells: Go's `*Set[T]` values are indices into the
list of allocated sets.  Used to state that the derived operations
allocate a fresh cell and write no existing one. -/
abbrev SetHeap (T : Type) [DecidableEq T] : Type :=
  List (Finset T)

namespace GoSet

variable {T : Type} [DecidableEq T]

/-- The set stored at address `i` (empty for a dangling address). -/
def heapAt (h : SetHeap T) (i : Nat) : GoSet T :=
  ⟨h.getD i ∅⟩

/-- Go `Intersect` on the heap: `result := NewSet()` allocates a fresh cell
at the next address, the loop fills it from the cells at `i` and `j`,
and no existing cell is written. -/
def IntersectH (h : SetHeap T) (i j : Nat) : SetHeap T × Nat :=
  (h ++ [(Intersect (heapAt h i) (heapAt h j)).members], h.length)

/-- Go `Union` on the heap, same allocation discipline. -/
def UnionH (h : SetHeap T) (i j : Nat) : SetHeap T × Nat :=
  (h ++ [(Union (heapAt h i) (heapAt h j)).members], h.length)

/-- Go `Difference` on the heap, same allocation discipline. -/
def DifferenceH (h : SetHeap T) (i j : Nat) : SetHeap T × Nat :=
  (h ++ [(Difference (heapAt h i) (heapAt h j)).members], h.length)

end GoSet

/-- The element type of the duplicate-suppression test: a record with an
`email` field, compared by that field. -/
structure ContactUser where
  email : String
  deriving DecidableEq, Inhabited

/-- Equivalence-by-field from the duplicate-suppression example: two
contacts are duplicates when their `email` fields coincide. -/
def emailEquals (a b : ContactUser) : Bool :=
  a.email == b.email

namespace Queue

variable {T : Type}

lemma dequeue_cons [Inhabited T] (x : T) (l : List T) (p : Bool) (f : T → T → Bool) :
    Dequeue ⟨x :: l, p, f⟩ = ((x, true), ⟨l, p, f⟩) := by
  cases l with
  | nil => rfl
  | cons y ys => rfl

lemma dequeue_state (q : Queue T) [Inhabited T] :
    (q.Dequeue).2 = { q with elements := q.elements.tail } := by
  obtain ⟨l, p, f⟩ := q
  cases l with
  | nil => rfl
  | cons x xs => rw [dequeue_cons]; rfl

/-- Claim C3: `PreventDuplicates` returns an error exactly when the
element type is not runtime-comparable; the check reads only `comp`, so
it happens at activation and never per element, and every other
operation of the library is embedded with an error-free result type. -/
theorem c3_error_iff_not_comparable (comp : Bool) (q : Queue T) (f : T → T → Bool) :
    (PreventDuplicates comp q f).2.isSome = true ↔ comp = false := by
  cases comp <;> simp [PreventDuplicates]

/-- Claim C7: `Dequeue` and `Peek` on an empty queue return the zero
value with `false` and leave the queue as it was, and `Peek` returns
every queue (empty or not) unchanged. -/
theorem c7_empty_returns_zero_false [Inhabited T] (q q' : Queue T)
    (h : q.elements = []) :
    q.Dequeue = ((default, false), q) ∧
    q.Peek = ((default, false), q) ∧
    (q'.Peek).2 = q' := by
  refine ⟨?_, ?_, ?_⟩
  · simp [Dequeue, IsEmpty, h]
  · simp [Peek, IsEmpty, h]
  · simp only [Peek]
    split <;> rfl

/-- Witness for C7 at the empty queue over `Nat` and a non-empty
second queue. -/
theorem c7_witness :
    (NewQueue Nat).elements = [] ∧
    ((NewQueue Nat).Dequeue = ((default, false), NewQueue Nat) ∧
     (NewQueue Nat).Peek = ((default, false), NewQueue Nat) ∧
     ((⟨[3, 4], false, fun _ _ => false⟩ : Queue Nat).Peek).2 =
       ⟨[3, 4], false, fun _ _ => false⟩) :=
  ⟨rfl, c7_empty_returns_zero_false (NewQueue Nat) ⟨[3, 4], false, fun _ _ => false⟩ rfl⟩

end Queue

namespace QueueS

variable {T : Type}

/-- Claim C9: a `Dequeue` that removes the last remaining element takes
the explicit-reset branch: the resulting storage is the `nil` slice,
whose header equals a newly constructed queue's storage and whose
backing array holds no elements, instead of the truncated reslice that
would retain the dequeued value in its backing array. -/
theorem c9_drain_resets_storage [Inhabited T] (q : QueueS T)
    (h : q.elements.len = 1) :
    ((q.DequeueS).2).elements = (NewQueueS T).elements ∧
    ((q.DequeueS).2).elements.backing = [] ∧
    (q.DequeueS).1.2 = true := by
  simp [DequeueS, h, GoSlice.goNil, NewQueueS]

/-- Witness for C9: a one-element queue whose backing array still
retains an already dequeued value at offset 0. -/
theorem c9_witness :
    (⟨⟨[5, 7], 1, 1⟩⟩ : QueueS Nat).elements.len = 1 ∧
    (((⟨⟨[5, 7], 1, 1⟩⟩ : QueueS Nat).DequeueS).2).elements = (NewQueueS Nat).elements ∧
    (((⟨⟨[5, 7], 1, 1⟩⟩ : QueueS Nat).DequeueS).2).elements.backing = ([] : List Nat) ∧
    ((⟨⟨[5, 7], 1, 1⟩⟩ : QueueS Nat).DequeueS).1.2 = true := by
  have h := c9_drain_resets_storage (⟨⟨[5, 7], 1, 1⟩⟩ : QueueS Nat) rfl
  exact ⟨rfl, h.1, h.2.1, h.2.2⟩

end QueueS

namespace Queue

variable {T : Type}

lemma enqueue_no_suppress (q : Queue T) (x : T) (h : q.preventDuplicates = false) :
    q.Enqueue x = { q with elements := q.elements ++ [x] } := by
  simp [Enqueue, h]

lemma enqueue_fields (q : Queue T) (x : T) :
    (q.Enqueue x).preventDuplicates = q.preventDuplicates ∧
    (q.Enqueue x).equalsFunc = q.equalsFunc := by
  simp only [Enqueue]
  split <;> exact ⟨rfl, rfl⟩

lemma enqueueAll_no_suppress (vs : List T) (q : Queue T)
    (h : q.preventDuplicates = false) :
    enqueueAll q vs = { q with elements := q.elements ++ vs } := by
  induction vs generalizing q with
  | nil => simp [enqueueAll]
  | cons v vs ih =>
    have hstep : enqueueAll q (v :: vs) = enqueueAll (q.Enqueue v) vs := rfl
    rw [hstep, enqueue_no_suppress q v h,
      ih { q with elements := q.elements ++ [v] } h, List.append_assoc]
    rfl

lemma dequeueList_of_elements [Inhabited T] (vs : List T) (q : Queue T)
    (h : q.elements = vs) :
    (dequeueList q vs.length).1 = vs.map (fun v => (v, true)) := by
  induction vs generalizing q with
  | nil => rfl
  | cons v vs ih =>
    obtain ⟨l, p, f⟩ := q
    subst h
    show ((⟨v :: vs, p, f⟩ : Queue T).Dequeue.1 ::
      (dequeueList (⟨v :: vs, p, f⟩ : Queue T).Dequeue.2 vs.length).1) = _
    rw [dequeue_cons]
    simp [ih ⟨vs, p, f⟩ rfl]

/-- Claim C5: on a fresh queue without duplicate suppression, after
enqueuing `v1, ..., vn` with no interleaved dequeue, the next `n`
`Dequeue` calls return `(v1, true), ..., (vn, true)` in that order. -/
theorem c5_fifo_order [Inhabited T] (vs : List T) :
    (dequeueList (enqueueAll (NewQueue T) vs) vs.length).1 =
      vs.map (fun v => (v, true)) := by
  apply dequeueList_of_elements
  rw [enqueueAll_no_suppress vs (NewQueue T) rfl]
  simp [NewQueue]

/-- Claim C4: with duplicate suppression active, `Enqueue x` leaves the
queue unchanged when some current element is equivalent to `x` under
the registered function, and appends `x` to the back otherwise; in
particular two equivalent elements enqueued into an empty suppressing
queue leave `Length` at 1. -/
theorem c4_enqueue_suppresses_duplicates (q : Queue T) (x : T)
    (f : T → T → Bool) (a b : T)
    (hq : q.preventDuplicates = true) (hab : f b a = true) :
    (q.elements.any (fun e => q.equalsFunc x e) = true → q.Enqueue x = q) ∧
    (q.elements.any (fun e => q.equalsFunc x e) = false →
      q.Enqueue x = { q with elements := q.elements ++ [x] }) ∧
    Length (Enqueue (Enqueue (PreventDuplicates true (NewQueue T) f).1 a) b) = 1 := by
  refine ⟨?_, ?_, ?_⟩
  · intro h
    simp [Enqueue, hq, h]
  · intro h
    simp [Enqueue, hq, h]
  · simp [PreventDuplicates, NewQueue, Enqueue, Length, hab]

/-- Witness for C4 with the equivalence-by-email function: a suppressing
queue already holding alice, offered bob, and the two-enqueue scenario
with two alices. -/
theorem c4_witness :
    ((PreventDuplicates true (NewQueue ContactUser) emailEquals).1.preventDuplicates = true) ∧
    (emailEquals ⟨"alice"⟩ ⟨"alice"⟩ = true) ∧
    (((PreventDuplicates true (NewQueue ContactUser) emailEquals).1.elements.any
        (fun e => (PreventDuplicates true (NewQueue ContactUser) emailEquals).1.equalsFunc ⟨"bob"⟩ e) = true →
        (PreventDuplicates true (NewQueue ContactUser) emailEquals).1.Enqueue ⟨"bob"⟩ =
          (PreventDuplicates true (NewQueue ContactUser) emailEquals).1) ∧
     ((PreventDuplicates true (NewQueue ContactUser) emailEquals).1.elements.any
        (fun e => (PreventDuplicates true (NewQueue ContactUser) emailEquals).1.equalsFunc ⟨"bob"⟩ e) = false →
        (PreventDuplicates true (NewQueue ContactUser) emailEquals).1.Enqueue ⟨"bob"⟩ =
          { (PreventDuplicates true (NewQueue ContactUser) emailEquals).1 with
              elements := (PreventDuplicates true (NewQueue ContactUser) emailEquals).1.elements ++ [⟨"bob"⟩] }) ∧
     Length (Enqueue (Enqueue (PreventDuplicates true (NewQueue ContactUser) emailEquals).1 ⟨"alice"⟩) ⟨"alice"⟩) = 1) :=
  ⟨rfl, by decide,
   c4_enqueue_suppresses_duplicates
     (PreventDuplicates true (NewQueue ContactUser) emailEquals).1
     ⟨"bob"⟩ emailEquals ⟨"alice"⟩ ⟨"alice"⟩ rfl (by decide)⟩

lemma prevDup_error_comp (comp : Bool) (q : Queue T) (f : T → T → Bool)
    (h : (PreventDuplicates comp q f).2.isSome = true) : comp = false := by
  cases comp with
  | false => rfl
  | true => simp [PreventDuplicates] at h

lemma applyQOps_comp_false [Inhabited T] (ops : List (QOp T)) (q : Queue T) :
    (applyQOps false ops q).preventDuplicates = q.preventDuplicates ∧
    (applyQOps false ops q).equalsFunc = q.equalsFunc := by
  induction ops generalizing q with
  | nil => exact ⟨rfl, rfl⟩
  | cons op ops ih =>
    have hstep : (applyQOp false q op).preventDuplicates = q.preventDuplicates ∧
        (applyQOp false q op).equalsFunc = q.equalsFunc := by
      cases op with
      | enq x => exact enqueue_fields q x
      | deq => simp [applyQOp, dequeue_state]
      | prevDup f => simp [applyQOp, PreventDuplicates]
    have hrest := ih (applyQOp false q op)
    exact ⟨hrest.1.trans hstep.1, hrest.2.trans hstep.2⟩

/-- Claim C10: when `PreventDuplicates` returns an error on a reachable
queue, that queue is returned unchanged, suppression is off, the
offered function is not stored (`equalsFunc` is still the constructor's),
and `Enqueue` on any queue reachable under the same element type appends
its element unconditionally, independent of the offered function. -/
theorem c10_error_leaves_queue_unchanged [Inhabited T] (comp : Bool)
    (ops ops' : List (QOp T)) (f : T → T → Bool) (x : T)
    (herr : (PreventDuplicates comp (applyQOps comp ops (NewQueue T)) f).2.isSome = true) :
    (PreventDuplicates comp (applyQOps comp ops (NewQueue T)) f).1 =
      applyQOps comp ops (NewQueue T) ∧
    (applyQOps comp ops' (NewQueue T)).preventDuplicates = false ∧
    (applyQOps comp ops' (NewQueue T)).equalsFunc = (NewQueue T).equalsFunc ∧
    Enqueue (applyQOps comp ops' (NewQueue T)) x =
      { applyQOps comp ops' (NewQueue T) with
          elements := (applyQOps comp ops' (NewQueue T)).elements ++ [x] } := by
  have hc : comp = false := prevDup_error_comp comp _ f herr
  subst hc
  have hinv := applyQOps_comp_false ops' (NewQueue T)
  refine ⟨by simp [PreventDuplicates], hinv.1, hinv.2, ?_⟩
  exact enqueue_no_suppress _ x hinv.1

/-- Witness for C10 over `Nat` (not runtime-comparable here is modelled
by `comp = false`), with a non-empty trace before the failing call and a
different trace afterwards. -/
theorem c10_witness :
    ((PreventDuplicates false
        (applyQOps false [QOp.enq 1] (NewQueue Nat)) (fun a b => a == b)).2.isSome = true) ∧
    ((PreventDuplicates false (applyQOps false [QOp.enq 1] (NewQueue Nat)) (fun a b => a == b)).1 =
        applyQOps false [QOp.enq 1] (NewQueue Nat) ∧
     (applyQOps false [QOp.enq 2, QOp.deq] (NewQueue Nat)).preventDuplicates = false ∧
     (applyQOps false [QOp.enq 2, QOp.deq] (NewQueue Nat)).equalsFunc = (NewQueue Nat).equalsFunc ∧
     Enqueue (applyQOps false [QOp.enq 2, QOp.deq] (NewQueue Nat)) 5 =
       { applyQOps false [QOp.enq 2, QOp.deq] (NewQueue Nat) with
           elements := (applyQOps false [QOp.enq 2, QOp.deq] (NewQueue Nat)).elements ++ [5] }) :=
  ⟨rfl, c10_error_leaves_queue_unchanged false [QOp.enq 1] [QOp.enq 2, QOp.deq]
    (fun a b => a == b) 5 rfl⟩

end Queue

namespace Queue

variable {T : Type}

/-- Counterexample to claim C1: enqueue 1 twice, then enable duplicate
suppression with numeric equality.  The state is reachable, suppression
is enabled, and the sequence still holds two equivalent elements, since
`PreventDuplicates` never removes pre-existing duplicates. -/
theorem c1_counterexample :
    (applyQOps true [QOp.enq 1, QOp.enq 1, QOp.prevDup (fun a b : Nat => a == b)]
        (NewQueue Nat)).preventDuplicates = true ∧
    ¬ NoDupsUnder (applyQOps true [QOp.enq 1, QOp.enq 1,
        QOp.prevDup (fun a b : Nat => a == b)] (NewQueue Nat)) := by
  refine ⟨rfl, ?_⟩
  intro h
  simp only [NoDupsUnder] at h
  have h2 : (applyQOps true [QOp.enq 1, QOp.enq 1,
      QOp.prevDup (fun a b : Nat => a == b)] (NewQueue Nat)).elements = [1, 1] := rfl
  rw [h2] at h
  have h3 := List.rel_of_pairwise_cons h (List.mem_singleton.mpr rfl)
  exact absurd h3 (by decide)

lemma enqueue_preserves_noDups (q : Queue T) (x : T) (f0 : T → T → Bool)
    (hsym : ∀ a b, f0 a b = f0 b a)
    (hp : q.preventDuplicates = true) (hf : q.equalsFunc = f0)
    (hnd : List.Pairwise (fun a b => f0 a b = false) q.elements) :
    List.Pairwise (fun a b => f0 a b = false) (q.Enqueue x).elements := by
  by_cases h : q.elements.any (fun e => q.equalsFunc x e) = true
  · rw [show q.Enqueue x = q from by simp [Enqueue, hp, h]]
    exact hnd
  · have h' : q.elements.any (fun e => q.equalsFunc x e) = false :=
      Bool.eq_false_iff.mpr h
    rw [show (q.Enqueue x).elements = q.elements ++ [x] from by
      simp [Enqueue, hp, h']]
    rw [List.pairwise_append]
    refine ⟨hnd, by simp, ?_⟩
    intro a ha b hb
    rw [List.mem_singleton] at hb
    have hax := List.any_eq_false.mp h' a ha
    rw [hf] at hax
    rw [hb, hsym a x]
    exact Bool.eq_false_iff.mpr hax

lemma applyQOps_preserves_noDups [Inhabited T] (comp : Bool) (f0 : T → T → Bool)
    (hsym : ∀ a b, f0 a b = f0 b a)
    (ops : List (QOp T)) (q : Queue T)
    (hops : ∀ op ∈ ops, op.isPrevDup = false)
    (hp : q.preventDuplicates = true)
    (hf : q.equalsFunc = f0)
    (hnd : List.Pairwise (fun a b => f0 a b = false) q.elements) :
    (applyQOps comp ops q).preventDuplicates = true ∧
    (applyQOps comp ops q).equalsFunc = f0 ∧
    List.Pairwise (fun a b => f0 a b = false) (applyQOps comp ops q).elements := by
  induction ops generalizing q with
  | nil => exact ⟨hp, hf, hnd⟩
  | cons op ops ih =>
    have hops' : ∀ o ∈ ops, o.isPrevDup = false := fun o ho =>
      hops o (List.mem_cons_of_mem op ho)
    cases op with
    | enq x =>
      exact ih (q.Enqueue x) hops' ((enqueue_fields q x).1.trans hp)
        ((enqueue_fields q x).2.trans hf)
        (enqueue_preserves_noDups q x f0 hsym hp hf hnd)
    | deq =>
      refine ih (q.Dequeue).2 hops' ?_ ?_ ?_
      · rw [dequeue_state]
        exact hp
      · rw [dequeue_state]
        exact hf
      · rw [dequeue_state]
        exact List.Pairwise.tail hnd
    | prevDup f =>
      exact absurd (hops (QOp.prevDup f) (List.mem_cons_self _ _)) (by simp [QOp.isPrevDup])

/-- Claim C1 amended: duplicate suppression maintains the no-duplicates
invariant but does not establish it.  From any state with suppression
enabled, a symmetric registered function and pairwise non-equivalent
elements (as when suppression was enabled on an empty queue), every
further trace of `Enqueue`/`Dequeue` calls keeps the elements pairwise
non-equivalent; states that held equivalent elements before enabling
keep them (see the counterexample). -/
theorem c1_suppression_invariant [Inhabited T] (comp : Bool) (q : Queue T)
    (ops : List (QOp T))
    (hp : q.preventDuplicates = true)
    (hsym : ∀ a b, q.equalsFunc a b = q.equalsFunc b a)
    (hnd : q.NoDupsUnder)
    (hops : ∀ op ∈ ops, op.isPrevDup = false) :
    (applyQOps comp ops q).NoDupsUnder := by
  have h := applyQOps_preserves_noDups comp q.equalsFunc hsym ops q hops hp rfl hnd
  have hfin : (applyQOps comp ops q).equalsFunc = q.equalsFunc := h.2.1
  simp only [NoDupsUnder, hfin]
  exact h.2.2

/-- Witness for the amended C1: suppression enabled on an empty boolean
queue, then two enqueues of the same value and a dequeue. -/
theorem c1_witness :
    ((PreventDuplicates true (NewQueue Bool) (fun a b => a == b)).1.preventDuplicates = true) ∧
    (∀ a b, (PreventDuplicates true (NewQueue Bool) (fun a b => a == b)).1.equalsFunc a b =
      (PreventDuplicates true (NewQueue Bool) (fun a b => a == b)).1.equalsFunc b a) ∧
    NoDupsUnder (PreventDuplicates true (NewQueue Bool) (fun a b => a == b)).1 ∧
    (∀ op ∈ [QOp.enq true, QOp.enq true, QOp.deq], QOp.isPrevDup op = false) ∧
    NoDupsUnder (applyQOps true [QOp.enq true, QOp.enq true, QOp.deq]
      (PreventDuplicates true (NewQueue Bool) (fun a b => a == b)).1) :=
  ⟨rfl, by decide, List.Pairwise.nil, by decide,
   c1_suppression_invariant true
     (PreventDuplicates true (NewQueue Bool) (fun a b => a == b)).1
     [QOp.enq true, QOp.enq true, QOp.deq]
     rfl (by decide) List.Pairwise.nil (by decide)⟩

end Queue

namespace GoSet

variable {T : Type} [DecidableEq T]

/-- Counterexample to claim C2: the trace `Add 1, Remove 1, Add 1` has
one distinct element added and one distinct element successfully
removed, yet `Size` is 1, not `1 - 1 = 0`: a removed element that is
added again is counted once on each side of the subtraction. -/
theorem c2_counterexample :
    ¬ ((Size (applySetOps [SetOp.add 1, SetOp.remove 1, SetOp.add 1]) : Int) =
       ((distinctAdded [SetOp.add 1, SetOp.remove 1, SetOp.add (1 : Nat)]).card : Int) -
       ((distinctRemoved [SetOp.add 1, SetOp.remove 1, SetOp.add (1 : Nat)]).card : Int)) := by
  decide

lemma mem_applySetOps_aux (x : T) (ops : List (SetOp T)) :
    ∀ (s : GoSet T) (b : Bool), (x ∈ s.members ↔ b = true) →
      (x ∈ (ops.foldl applySetOp s).members ↔
        (ops.foldl
          (fun b op =>
            match op with
            | .add y => if y = x then true else b
            | .remove y => if y = x then false else b)
          b) = true) := by
  induction ops with
  | nil => exact fun s b h => h
  | cons op ops ih =>
    intro s b h
    cases op with
    | add y =>
      refine ih (applySetOp s (.add y)) (if y = x then true else b) ?_
      by_cases hyx : y = x
      · subst hyx
        simp [applySetOp, Add]
      · simp [applySetOp, Add, Finset.mem_insert, Ne.symm hyx, hyx, h]
    | remove y =>
      refine ih (applySetOp s (.remove y)) (if y = x then false else b) ?_
      by_cases hyx : y = x
      · subst hyx
        simp [applySetOp, Remove]
      · simp [applySetOp, Remove, Finset.mem_erase, Ne.symm hyx, hyx, h]

lemma lastIsAdd_mem_added_aux (x : T) (ops : List (SetOp T)) :
    ∀ (b : Bool) (a : Finset T), (b = true → x ∈ a) →
      (ops.foldl
          (fun b op =>
            match op with
            | .add y => if y = x then true else b
            | .remove y => if y = x then false else b)
          b) = true →
        x ∈ ops.foldl
          (fun acc op =>
            match op with
            | .add y => insert y acc
            | .remove _ => acc)
          a := by
  induction ops with
  | nil => exact fun b a h hb => h hb
  | cons op ops ih =>
    intro b a h
    cases op with
    | add y =>
      refine ih (if y = x then true else b) (insert y a) ?_
      by_cases hyx : y = x
      · intro _
        rw [hyx]
        exact Finset.mem_insert_self x a
      · simp only [hyx, if_false]
        intro hb
        exact Finset.mem_insert_of_mem (h hb)
    | remove y =>
      refine ih (if y = x then false else b) a ?_
      by_cases hyx : y = x
      · simp [hyx]
      · simp only [hyx, if_false]
        exact h

lemma members_applySetOps_eq_filter (ops : List (SetOp T)) :
    (applySetOps ops).members =
      (distinctAdded ops).filter (fun x => lastIsAdd ops x = true) := by
  ext x
  rw [Finset.mem_filter]
  constructor
  · intro hx
    have hl := (mem_applySetOps_aux x ops (NewSet T) false (by simp [NewSet])).mp hx
    exact ⟨lastIsAdd_mem_added_aux x ops false ∅ (fun hb => absurd hb (by simp)) hl, hl⟩
  · intro hx
    exact (mem_applySetOps_aux x ops (NewSet T) false (by simp [NewSet])).mpr hx.2

/-- Claim C2 amended: after any trace of `Add`/`Remove` operations since
`NewSet` (equivalently, since the last `Clear`), `Size()` equals the
number of distinct elements added whose most recent `Add`/`Remove`
operation is an `Add`; subtracting the distinct successfully removed
elements overcounts elements that are removed and later re-added. -/
theorem c2_size_eq_last_add_count (ops : List (SetOp T)) :
    Size (applySetOps ops) =
      ((distinctAdded ops).filter (fun x => lastIsAdd ops x = true)).card := by
  unfold Size
  rw [members_applySetOps_eq_filter]

/-- Claim C6: the members of `A.Intersect(B)` and of `A.Difference(B)`
together count exactly the members of `A` (partition law). -/
theorem c6_partition_law (A B : GoSet T) :
    Multiset.card (Members (Intersect A B)) + Multiset.card (Members (Difference A B)) =
      Multiset.card (Members A) := by
  show (A.members.filter (fun member => member ∈ B.members)).card +
      (A.members.filter (fun member => member ∉ B.members)).card = A.members.card
  exact Finset.filter_card_add_filter_neg_card_eq_card (fun member => member ∈ B.members)

lemma heapAt_append_lt (h : SetHeap T) (v : Finset T) (k : Nat)
    (hk : k < h.length) : heapAt (h ++ [v]) k = heapAt h k := by
  unfold heapAt
  rw [List.getD_append _ _ _ _ hk]

lemma heapAt_append_len (h : SetHeap T) (v : Finset T) :
    heapAt (h ++ [v]) h.length = ⟨v⟩ := by
  unfold heapAt
  rw [List.getD_append_right _ _ _ _ (le_refl _)]
  simp

/-- Claim C8: `Intersect`, `Union` and `Difference` on the heap of
allocated sets write no existing cell (in particular both operand
cells keep their membership) and return a freshly allocated address,
one past the existing cells, holding the operation's result. -/
theorem c8_derived_ops_allocate_fresh (h : SetHeap T) (i j k : Nat)
    (hk : k < h.length) :
    (heapAt (IntersectH h i j).1 k = heapAt h k ∧
     (IntersectH h i j).2 = h.length ∧
     heapAt (IntersectH h i j).1 (IntersectH h i j).2 =
       Intersect (heapAt h i) (heapAt h j)) ∧
    (heapAt (UnionH h i j).1 k = heapAt h k ∧
     (UnionH h i j).2 = h.length ∧
     heapAt (UnionH h i j).1 (UnionH h i j).2 =
       Union (heapAt h i) (heapAt h j)) ∧
    (heapAt (DifferenceH h i j).1 k = heapAt h k ∧
     (DifferenceH h i j).2 = h.length ∧
     heapAt (DifferenceH h i j).1 (DifferenceH h i j).2 =
       Difference (heapAt h i) (heapAt h j)) := by
  refine ⟨⟨?_, rfl, ?_⟩, ⟨?_, rfl, ?_⟩, ⟨?_, rfl, ?_⟩⟩
  · exact heapAt_append_lt h _ k hk
  · exact heapAt_append_len h _
  · exact heapAt_append_lt h _ k hk
  · exact heapAt_append_len h _
  · exact heapAt_append_lt h _ k hk
  · exact heapAt_append_len h _

/-- Witness for C8 on the two-cell heap `[{1, 2}, {2, 3}]`, observing
the first operand cell. -/
theorem c8_witness :
    (0 < ([{1, 2}, {2, 3}] : SetHeap Nat).length) ∧
    ((heapAt (IntersectH ([{1, 2}, {2, 3}] : SetHeap Nat) 0 1).1 0 =
        heapAt ([{1, 2}, {2, 3}] : SetHeap Nat) 0 ∧
      (IntersectH ([{1, 2}, {2, 3}] : SetHeap Nat) 0 1).2 =
        ([{1, 2}, {2, 3}] : SetHeap Nat).length ∧
      heapAt (IntersectH ([{1, 2}, {2, 3}] : SetHeap Nat) 0 1).1
          (IntersectH ([{1, 2}, {2, 3}] : SetHeap Nat) 0 1).2 =
        Intersect (heapAt ([{1, 2}, {2, 3}] : SetHeap Nat) 0)
          (heapAt ([{1, 2}, {2, 3}] : SetHeap Nat) 1)) ∧
     (heapAt (UnionH ([{1, 2}, {2, 3}] : SetHeap Nat) 0 1).1 0 =
        heapAt ([{1, 2}, {2, 3}] : SetHeap Nat) 0 ∧
      (UnionH ([{1, 2}, {2, 3}] : SetHeap Nat) 0 1).2 =
        ([{1, 2}, {2, 3}] : SetHeap Nat).length ∧
      heapAt (UnionH ([{1, 2}, {2, 3}] : SetHeap Nat) 0 1).1
          (UnionH ([{1, 2}, {2, 3}] : SetHeap Nat) 0 1).2 =
        Union (heapAt ([{1, 2}, {2, 3}] : SetHeap Nat) 0)
          (heapAt ([{1, 2}, {2, 3}] : SetHeap Nat) 1)) ∧
     (heapAt (DifferenceH ([{1, 2}, {2, 3}] : SetHeap Nat) 0 1).1 0 =
        heapAt ([{1, 2}, {2, 3}] : SetHeap Nat) 0 ∧
      (DifferenceH ([{1, 2}, {2, 3}] : SetHeap Nat) 0 1).2 =
        ([{1, 2}, {2, 3}] : SetHeap Nat).length ∧
      heapAt (DifferenceH ([{1, 2}, {2, 3}] : SetHeap Nat) 0 1).1
          (DifferenceH ([{1, 2}, {2, 3}] : SetHeap Nat) 0 1).2 =
        Difference (heapAt ([{1, 2}, {2, 3}] : SetHeap Nat) 0)
          (heapAt ([{1, 2}, {2, 3}] : SetHeap Nat) 1))) :=
  ⟨by decide, c8_derived_ops_allocate_fresh ([{1, 2}, {2, 3}] : SetHeap Nat) 0 1 0 (by decide)⟩

end GoSet
